import Mathlib

/-!
Shallow embedding of the traversal engine of `ghwalk` (file `ghwalk.go`).

Paths are modelled as lists of components (a clean slash-separated relative
path); the empty list is the repository root, matching the empty string in
the Go code.  The remote collaborator (`client.Repositories.GetContents`)
is modelled as a finite table from directory paths to either a transport
error or the raw listing as returned by the GitHub API: a list of possibly
nil pointers to content records whose fields are all optional.  Every
engine function additionally returns the list of remote calls and visitor
invocations it performed, so that call-count and visit-count properties can
be stated.  A Go panic (nil-pointer dereference) and a hypothetical
nonterminating run are explicit outcomes; recursion depth is bounded by an
explicit fuel argument that is consumed only when descending into a
directory (the Go recursion has no such bound; fuel is a modelling
artifact, and exhausting it yields the `diverge` outcome).
-/

/-- Errors of the Go code: the `SkipDir` sentinel, the `stat` not-found
error (`no such path found: %s`), a transport error from the collaborator,
and arbitrary caller-made errors a visitor may return. -/
inductive GoErr where
  | skipDir : GoErr
  | notFound : List String → GoErr
  | transport : Nat → GoErr
  | user : Nat → GoErr
deriving DecidableEq, Repr

/-- Embedding of the `FileInfo` struct (the `raw` field is carried only for
`GetContent` and is omitted; `Path` is modelled in components). -/
structure FileInfo where
  type : String
  target : Option String
  encoding : Option String
  size : Int
  name : String
  path : List String
  content : Option String
  sha : String
  url : String
  giturl : String
  htmlurl : String
  downloadURL : Option String
deriving DecidableEq, Repr

/-- Embedding of `FileInfo.IsDir`. -/
def FileInfo.isDir (f : FileInfo) : Bool :=
  f.type = "dir"

/-- One observable action of the engine: a remote list call
(`GetContents` on a directory path), a remote per-file detail call (only in
the spec-modelled detail-fetch variant), or a visitor invocation. -/
inductive Event where
  | listCall : List String → Event
  | detailCall : List String → Event
  | visit : List String → Option FileInfo → Option GoErr → Event
deriving DecidableEq, Repr

/-- Result of running a piece of Go code: a normal value, a runtime panic
(nil-pointer dereference), or nontermination (only reachable in the model
when the fuel bound is exhausted). -/
inductive Outcome (α : Type) where
  | ok : α → Outcome α
  | panic : Outcome α
  | diverge : Outcome α
deriving DecidableEq, Repr

/-- Map a function over a normal result. -/
def Outcome.map {α β : Type} (f : α → β) : Outcome α → Outcome β
  | .ok a => .ok (f a)
  | .panic => .panic
  | .diverge => .diverge

/-- One record of the GitHub contents API (`github.RepositoryContent`):
every field is a possibly nil pointer. -/
structure RawContent where
  type : Option String
  target : Option String
  encoding : Option String
  size : Option Int
  name : Option String
  path : Option (List String)
  content : Option String
  sha : Option String
  url : Option String
  giturl : Option String
  htmlurl : Option String
  downloadURL : Option String
deriving DecidableEq, Repr

deriving instance DecidableEq for Except

/-- The remote collaborator: a finite table from directory paths to the
result of listing them.  An entry of the listing may be the nil pointer. -/
def Env : Type :=
  List (List String × Except GoErr (List (Option RawContent)))

/-- One remote `GetContents` call: look the path up in the table; a path
the table does not know fails like the GitHub API does on a missing path
(a transport-level error response). -/
def fetch : Env → List String → Except GoErr (List (Option RawContent))
  | [], _ => .error (.transport 404)
  | (p, r) :: rest, q => if p = q then r else fetch rest q

/-- Embedding of `filepath.Dir` on clean relative paths, including the
`if parentPath == "." { parentPath = "" }` adjustment of `stat`: the
parent of a single-component path is the root. -/
def fpDir (p : List String) : List String :=
  p.dropLast

/-- Embedding of `filepath.Base` on clean nonempty relative paths. -/
def fpBase : List String → String
  | [] => "."
  | [x] => x
  | _ :: xs => fpBase xs

/-- Embedding of `filepath.Join` of a directory path and a child name. -/
def fpJoin (p : List String) (n : String) : List String :=
  p ++ [n]

/-- Embedding of `newFileInfo`: dereferences the `Type`, `Size`, `Name`,
`Path`, `SHA`, `URL`, `GitURL` and `HTMLURL` pointers without nil checks,
so a record missing one of them panics. -/
def newFileInfo (c : RawContent) : Outcome FileInfo :=
  match c.type, c.size, c.name, c.path, c.sha, c.url, c.giturl, c.htmlurl with
  | some ty, some sz, some nm, some pa, some sh, some u, some g, some h =>
    .ok { type := ty, target := c.target, encoding := c.encoding, size := sz,
          name := nm, path := pa, content := c.content, sha := sh, url := u,
          giturl := g, htmlurl := h, downloadURL := c.downloadURL }
  | _, _, _, _, _, _, _, _ => .panic

/-- Embedding of the name-collection loop of `readDirNames`
(`entries = append(entries, *content.Name)`): it dereferences both the
entry pointer and its `Name` field with no nil check, so a nil entry or a
nil name panics. -/
def getNames : List (Option RawContent) → Outcome (List String)
  | [] => .ok []
  | none :: _ => .panic
  | some c :: rest =>
    match c.name with
    | none => .panic
    | some n => (getNames rest).map (fun ns => n :: ns)

/-- Lexicographic comparison of character lists by code point, the order
`sort.Strings` uses (byte-wise comparison of UTF-8 strings agrees with
code-point order). -/
def charListLe : List Char → List Char → Bool
  | [], _ => true
  | _ :: _, [] => false
  | a :: as, b :: bs =>
    if a.toNat < b.toNat then true
    else if b.toNat < a.toNat then false
    else charListLe as bs

/-- Lexicographic order on strings. -/
def strLe (a b : String) : Bool :=
  charListLe a.data b.data

/-- Embedding of `sort.Strings`: lexical ascending sort. -/
def sortStrings (l : List String) : List String :=
  List.insertionSort (fun a b => strLe a b = true) l

/-- Embedding of `readDirNames`: one remote list call, collect the child
names, sort them ascending. -/
def readDirNames (env : Env) (path : List String) :
    Outcome (Except GoErr (List String)) × List Event :=
  match fetch env path with
  | .error e => (.ok (.error e), [.listCall path])
  | .ok listing =>
    ((getNames listing).map (fun ns => Except.ok (sortStrings ns)), [.listCall path])

/-- Embedding of the scan loop of `stat`: skip nil entries, dereference
`content.Name` (panicking when the name pointer is nil), and build a
`FileInfo` for the first entry whose name matches the final component. -/
def statScan (path : List String) (base : String) :
    List (Option RawContent) → Outcome (Except GoErr FileInfo)
  | [] => .ok (.error (.notFound path))
  | none :: rest => statScan path base rest
  | some c :: rest =>
    match c.name with
    | none => .panic
    | some n =>
      if n = base then (newFileInfo c).map Except.ok
      else statScan path base rest

/-- Embedding of `stat`: the root has no metadata (`(nil, nil)`, no remote
call); otherwise list the parent directory and scan it for the final
component. -/
def stat (env : Env) (path : List String) :
    Outcome (Except GoErr (Option FileInfo)) × List Event :=
  if path = [] then (.ok (.ok none), [])
  else
    match fetch env (fpDir path) with
    | .error e => (.ok (.error e), [.listCall (fpDir path)])
    | .ok listing =>
      ((statScan path (fpBase path) listing).map (fun r => r.map some),
       [.listCall (fpDir path)])

/-- The visitor callback type (`WalkFunc`). -/
def WalkFn : Type :=
  List String → Option FileInfo → Option GoErr → Option GoErr

/-- Embedding of the child loop of `walk` (`for _, name := range names`),
with the recursive `walk` call abstracted as `recur`.  Each iteration
re-issues `stat` on the child path; a stat failure is offered to the
visitor and aborts unless the visitor answers nil or `SkipDir`; a stat
success recurses, and a `SkipDir` coming back from the recursion is
swallowed for a directory child and propagated for a non-directory child
(`if !fileInfo.IsDir() || err != SkipDir { return err }`, a nil `fileInfo`
being dereferenced there). -/
def walkChildren (env : Env) (path : List String) (walkFn : WalkFn)
    (recur : List String → Option FileInfo → Outcome (Option GoErr) × List Event) :
    List String → Outcome (Option GoErr) × List Event
  | [] => (.ok none, [])
  | name :: rest =>
    match stat env (fpJoin path name) with
    | (.panic, ev1) => (.panic, ev1)
    | (.diverge, ev1) => (.diverge, ev1)
    | (.ok (.error e), ev1) =>
      let r := walkFn (fpJoin path name) none (some e)
      if r = none ∨ r = some .skipDir then
        match walkChildren env path walkFn recur rest with
        | (o, ev2) => (o, ev1 ++ [.visit (fpJoin path name) none (some e)] ++ ev2)
      else (.ok r, ev1 ++ [.visit (fpJoin path name) none (some e)])
    | (.ok (.ok fi), ev1) =>
      match recur (fpJoin path name) fi with
      | (.panic, ev2) => (.panic, ev1 ++ ev2)
      | (.diverge, ev2) => (.diverge, ev1 ++ ev2)
      | (.ok none, ev2) =>
        match walkChildren env path walkFn recur rest with
        | (o, ev3) => (o, ev1 ++ ev2 ++ ev3)
      | (.ok (some e), ev2) =>
        match fi with
        | none => (.panic, ev1 ++ ev2)
        | some f =>
          if f.isDir = false ∨ e ≠ .skipDir then (.ok (some e), ev1 ++ ev2)
          else
            match walkChildren env path walkFn recur rest with
            | (o, ev3) => (o, ev1 ++ ev2 ++ ev3)

/-- Embedding of the directory part of `walk`: list the directory, then
invoke the visitor exactly once for the directory itself with the listing
error (if any); return the visitor answer when the listing failed or the
visitor answered non-nil, and run the child loop otherwise. -/
def walkDirStep (env : Env) (path : List String) (info : Option FileInfo)
    (walkFn : WalkFn)
    (recur : List String → Option FileInfo → Outcome (Option GoErr) × List Event) :
    Outcome (Option GoErr) × List Event :=
  match readDirNames env path with
  | (.panic, ev) => (.panic, ev)
  | (.diverge, ev) => (.diverge, ev)
  | (.ok (.error e), ev) =>
    (.ok (walkFn path info (some e)), ev ++ [.visit path info (some e)])
  | (.ok (.ok names), ev) =>
    match walkFn path info none with
    | some e => (.ok (some e), ev ++ [.visit path info none])
    | none =>
      match walkChildren env path walkFn
          (fun p i => recur p i) names with
      | (o, ev2) => (o, ev ++ [.visit path info none] ++ ev2)

/-- Embedding of the recursive `walk`: a resolved non-directory is a leaf
(visit it and return the visitor answer); a directory (or the synthetic
root, `info = nil`) goes through `walkDirStep`, recursing with one unit of
fuel less. -/
def walk (fuel : Nat) (env : Env) (path : List String) (info : Option FileInfo)
    (walkFn : WalkFn) : Outcome (Option GoErr) × List Event :=
  match info with
  | some i =>
    if i.isDir = false then
      (.ok (walkFn path (some i) none), [.visit path (some i) none])
    else
      match fuel with
      | 0 => (.diverge, [])
      | fuel + 1 =>
        walkDirStep env path (some i) walkFn (fun p j => walk fuel env p j walkFn)
  | none =>
    match fuel with
    | 0 => (.diverge, [])
    | fuel + 1 =>
      walkDirStep env path none walkFn (fun p j => walk fuel env p j walkFn)

/-- Embedding of `WalkOptions` (token and ref). -/
structure WalkOptions where
  token : String
  ref : String
deriving DecidableEq, Repr

/-- What the client-construction prologue of `Walk` produces: whether an
authenticated client was built, and which ref the content queries carry. -/
structure ClientConfig where
  authenticated : Bool
  ref : Option String
deriving DecidableEq, Repr

/-- Embedding of the prologue of `Walk` (lines building `tc`, `client` and
`getOpt`): a nil options value or an empty token yields the unauthenticated
client, a nil options value or an empty ref yields a nil
`RepositoryContentGetOptions`. -/
def mkClientConfig (opt : Option WalkOptions) : ClientConfig :=
  { authenticated := match opt with | some o => o.token ≠ "" | none => false,
    ref := match opt with
           | some o => if o.ref = "" then none else some o.ref
           | none => none }

/-- Embedding of the exported `Walk`: build the client, `stat` the starting
path, route a stat failure through the visitor, otherwise run `walk`, and
translate a `SkipDir` result into nil.  The remote tree may depend on the
client configuration, so the collaborator is a function of it. -/
def Walk (fuel : Nat) (remote : ClientConfig → Env) (opt : Option WalkOptions)
    (path : List String) (walkFn : WalkFn) : Outcome (Option GoErr) × List Event :=
  let env := remote (mkClientConfig opt)
  match stat env path with
  | (.panic, ev1) => (.panic, ev1)
  | (.diverge, ev1) => (.diverge, ev1)
  | (.ok (.error e), ev1) =>
    let r := walkFn path none (some e)
    ((if r = some .skipDir then .ok none else .ok r),
     ev1 ++ [.visit path none (some e)])
  | (.ok (.ok info), ev1) =>
    match walk fuel env path info walkFn with
    | (.ok r, ev2) =>
      ((if r = some .skipDir then .ok none else .ok r), ev1 ++ ev2)
    | (o, ev2) => (o, ev1 ++ ev2)

/-!
The repository's README and tests refer to an evolving variant of the
engine (`EnableFileOnlyInfo`, a pre-fetch filter hook, reverse ordering)
whose source file is not part of this tree; the definitions below model
that variant from the specification so that the claims about those
features can be stated.
-/

/-- Modelled from the spec: the remote collaborator of the detail-fetch
variant, with a per-directory listing table (entries already well formed)
and a per-path table of detail payloads for the second, per-file remote
call. -/
structure EnvM where
  listings : List (List String × Except GoErr (List FileInfo))
  details : List (List String × Except GoErr FileInfo)

/-- Modelled from the spec: one remote list call of the variant. -/
def fetchListing (env : EnvM) (q : List String) : Except GoErr (List FileInfo) :=
  match env.listings.find? (fun pr => pr.1 = q) with
  | some pr => pr.2
  | none => .error (.transport 404)

/-- Modelled from the spec: the second remote call addressed directly at a
non-directory path, returning the enriched entry. -/
def fetchDetail (env : EnvM) (q : List String) : Except GoErr FileInfo :=
  match env.details.find? (fun pr => pr.1 = q) with
  | some pr => pr.2
  | none => .error (.transport 404)

/-- Modelled from the spec: the variant's configuration — the detail-fetch
enable flag, the reverse-order flag, and the optional pre-fetch filter
hook. -/
structure WalkConfigM where
  fileOnlyInfo : Bool
  reverse : Bool
  filter : Option (List String → FileInfo → Bool)

/-- Modelled from the spec: `ListChildren` — one remote list call, order
the children by name, lexical ascending by default and descending when the
reverse flag is set. -/
def listChildren (env : EnvM) (rev : Bool) (path : List String) :
    Except GoErr (List FileInfo) × List Event :=
  match fetchListing env path with
  | .error e => (.error e, [.listCall path])
  | .ok entries =>
    let sorted := List.insertionSort (fun a b : FileInfo => strLe a.name b.name = true) entries
    (.ok (if rev then sorted.reverse else sorted), [.listCall path])

/-- Modelled from the spec: resolving one child in the child loop — the
listing-derived entry is used directly, unless detail-fetch is enabled and
the child is not a directory, in which case one second remote call
enriches it. -/
def resolveChild (env : EnvM) (cfg : WalkConfigM) (childPath : List String)
    (c : FileInfo) : Except GoErr FileInfo × List Event :=
  if !c.isDir && cfg.fileOnlyInfo then
    match fetchDetail env childPath with
    | .error e => (.error e, [.detailCall childPath])
    | .ok rich => (.ok rich, [.detailCall childPath])
  else (.ok c, [])

/-- Modelled from the spec: the child loop of the variant.  A child the
filter vetoes is skipped with no remote call and no visitor invocation; a
child whose resolution fails is offered to the visitor and aborts the walk
unless the visitor answers nil or the skip sentinel; otherwise the walk
recurses (abstracted as `recur`), swallowing a skip signal from a
directory child and propagating it for a non-directory child. -/
def walkChildrenM (env : EnvM) (cfg : WalkConfigM) (path : List String)
    (walkFn : WalkFn)
    (recur : List String → FileInfo → Outcome (Option GoErr) × List Event) :
    List FileInfo → Outcome (Option GoErr) × List Event
  | [] => (.ok none, [])
  | c :: rest =>
    if (match cfg.filter with
        | some f => f (fpJoin path c.name) c
        | none => false) then
      walkChildrenM env cfg path walkFn recur rest
    else
      match resolveChild env cfg (fpJoin path c.name) c with
      | (.error e, ev1) =>
        let r := walkFn (fpJoin path c.name) none (some e)
        if r = none ∨ r = some .skipDir then
          match walkChildrenM env cfg path walkFn recur rest with
          | (o, ev2) =>
            (o, ev1 ++ [.visit (fpJoin path c.name) none (some e)] ++ ev2)
        else (.ok r, ev1 ++ [.visit (fpJoin path c.name) none (some e)])
      | (.ok fi, ev1) =>
        match recur (fpJoin path c.name) fi with
        | (.panic, ev2) => (.panic, ev1 ++ ev2)
        | (.diverge, ev2) => (.diverge, ev1 ++ ev2)
        | (.ok none, ev2) =>
          match walkChildrenM env cfg path walkFn recur rest with
          | (o, ev3) => (o, ev1 ++ ev2 ++ ev3)
        | (.ok (some e), ev2) =>
          if c.isDir = false ∨ e ≠ .skipDir then (.ok (some e), ev1 ++ ev2)
          else
            match walkChildrenM env cfg path walkFn recur rest with
            | (o, ev3) => (o, ev1 ++ ev2 ++ ev3)

/-- Event classifiers and a counting helper for call-count claims. -/
def isListCall : Event → Bool
  | .listCall _ => true
  | _ => false

/-- Classifier for the per-file detail call of the modelled variant. -/
def isDetailCall : Event → Bool
  | .detailCall _ => true
  | _ => false

/-- Classifier for visitor invocations. -/
def isVisit : Event → Bool
  | .visit _ _ _ => true
  | _ => false

/-- Number of events satisfying a classifier. -/
def countP (p : Event → Bool) (l : List Event) : Nat :=
  (l.filter p).length

/-- A raw content record is well formed when every field `newFileInfo`
dereferences is present. -/
def goodContentB (c : RawContent) : Bool :=
  c.type.isSome && c.size.isSome && c.name.isSome && c.path.isSome &&
  c.sha.isSome && c.url.isSome && c.giturl.isSome && c.htmlurl.isSome

/-- A listing is well formed when every entry is a non-nil pointer to a
well-formed record. -/
def goodListingB (l : List (Option RawContent)) : Bool :=
  l.all (fun c => match c with
                  | some rc => goodContentB rc
                  | none => false)

/-- A collaborator table is well formed when every successful listing it
can return is well formed (failed calls are unconstrained). -/
def envOKB (env : Env) : Bool :=
  env.all (fun pr => match pr.2 with
                     | .ok l => goodListingB l
                     | .error _ => true)

/-! Order lemmas for the lexicographic comparison used by the sorts. -/

/-- The comparison is total. -/
theorem charListLe_total : ∀ as bs : List Char,
    charListLe as bs = true ∨ charListLe bs as = true := by
  intro as
  induction as with
  | nil => intro bs; left; rfl
  | cons a as ih =>
    intro bs
    cases bs with
    | nil => right; rfl
    | cons b bs =>
      simp only [charListLe]
      rcases Nat.lt_trichotomy a.toNat b.toNat with h | h | h
      · left; simp [h]
      · have hnl : ¬ a.toNat < b.toNat := by omega
        have hnr : ¬ b.toNat < a.toNat := by omega
        rcases ih bs with h2 | h2
        · left; simp [hnl, hnr, h2]
        · right; simp [hnl, hnr, h2]
      · right; simp [h]

/-- The comparison is transitive. -/
theorem charListLe_trans : ∀ as bs cs : List Char,
    charListLe as bs = true → charListLe bs cs = true → charListLe as cs = true := by
  intro as
  induction as with
  | nil => intro bs cs _ _; rfl
  | cons a as ih =>
    intro bs cs hab hbc
    cases bs with
    | nil => simp [charListLe] at hab
    | cons b bs =>
      cases cs with
      | nil => simp [charListLe] at hbc
      | cons c cs =>
        simp only [charListLe] at hab hbc ⊢
        by_cases h1 : a.toNat < b.toNat
        · by_cases h2 : b.toNat < c.toNat
          · have : a.toNat < c.toNat := by omega
            simp [this]
          · simp [h1] at hab
            by_cases h3 : c.toNat < b.toNat
            · simp [h2, h3] at hbc
            · have : a.toNat < c.toNat := by omega
              simp [this]
        · by_cases h4 : b.toNat < a.toNat
          · simp [h1, h4] at hab
          · by_cases h2 : b.toNat < c.toNat
            · have : a.toNat < c.toNat := by omega
              simp [this]
            · by_cases h3 : c.toNat < b.toNat
              · simp [h2, h3] at hbc
              · have e1 : ¬ a.toNat < c.toNat := by omega
                have e2 : ¬ c.toNat < a.toNat := by omega
                simp [h1, h4] at hab
                simp [h2, h3] at hbc
                simp [e1, e2]
                exact ih bs cs hab hbc

/-- The comparison is antisymmetric. -/
theorem charListLe_antisymm : ∀ as bs : List Char,
    charListLe as bs = true → charListLe bs as = true → as = bs := by
  intro as
  induction as with
  | nil =>
    intro bs _ hba
    cases bs with
    | nil => rfl
    | cons b bs => simp [charListLe] at hba
  | cons a as ih =>
    intro bs hab hba
    cases bs with
    | nil => simp [charListLe] at hab
    | cons b bs =>
      simp only [charListLe] at hab hba
      by_cases h1 : a.toNat < b.toNat
      · have h2 : ¬ b.toNat < a.toNat := by omega
        rw [if_neg h2, if_pos h1] at hba
        exact absurd hba (by simp)
      · by_cases h2 : b.toNat < a.toNat
        · simp [h1, h2] at hab
        · simp [h1, h2] at hab hba
          have hc : a = b := by
            apply Char.ext
            apply UInt32.ext
            simp only [Char.toNat] at h1 h2
            omega
          rw [hc, ih bs hab hba]

/-- The string order relation used by `sortStrings`. -/
def strLeR : String → String → Prop :=
  fun a b => strLe a b = true

instance : DecidableRel strLeR := by
  intro a b
  unfold strLeR
  infer_instance

instance : IsTotal String strLeR :=
  ⟨fun a b => charListLe_total a.data b.data⟩

instance : IsTrans String strLeR :=
  ⟨fun a b c => charListLe_trans a.data b.data c.data⟩

instance : IsAntisymm String strLeR := by
  refine ⟨fun a b hab hba => ?_⟩
  cases a; cases b
  have := charListLe_antisymm _ _ hab hba
  simp only [strLe] at this
  exact congrArg String.mk this

/-- The sorted output of `sortStrings`. -/
theorem sortStrings_sorted (l : List String) : (sortStrings l).Sorted strLeR := by
  exact List.sorted_insertionSort strLeR l

/-- The output of `sortStrings` is a permutation of its input. -/
theorem sortStrings_perm (l : List String) : List.Perm (sortStrings l) l :=
  List.perm_insertionSort strLeR l

/-! Path and stat helper lemmas. -/

/-- The parent of a joined child path is the directory itself. -/
theorem fpDir_join (p : List String) (n : String) : fpDir (fpJoin p n) = p := by
  simp [fpDir, fpJoin]

/-- Unfolding equation for the final component of a long path. -/
theorem fpBase_cons_cons (x y : String) (l : List String) :
    fpBase (x :: y :: l) = fpBase (y :: l) := rfl

/-- The final component of a joined child path is the child name. -/
theorem fpBase_join (p : List String) (n : String) : fpBase (fpJoin p n) = n := by
  induction p with
  | nil => rfl
  | cons x xs ih =>
    cases xs with
    | nil => rfl
    | cons y ys =>
      simpa [fpJoin, fpBase_cons_cons] using ih

/-- A joined child path is never the root. -/
theorem fpJoin_ne_nil (p : List String) (n : String) : fpJoin p n ≠ [] := by
  simp [fpJoin]

/-- A stat of a non-root path performs exactly one remote call: a listing
of the parent directory. -/
theorem stat_events (env : Env) (p : List String) (h : p ≠ []) :
    (stat env p).2 = [Event.listCall (fpDir p)] := by
  simp only [stat, if_neg h]
  cases fetch env (fpDir p) <;> rfl

/-- Embedding of the root case of `stat`: no metadata and no remote call. -/
theorem stat_root (env : Env) : stat env [] = (.ok (.ok none), []) := rfl

/-- A stat of a non-root path never reports success with a nil info. -/
theorem stat_not_ok_none (env : Env) (p : List String) (h : p ≠ []) :
    (stat env p).1 ≠ .ok (.ok none) := by
  simp only [stat, if_neg h]
  cases fetch env (fpDir p) with
  | error e => simp
  | ok listing =>
    cases hs : statScan p (fpBase p) listing with
    | ok r => cases r <;> simp [hs, Outcome.map, Except.map]
    | panic => simp [hs, Outcome.map]
    | diverge => simp [hs, Outcome.map]

/-! Permutation invariance of the name-collection loop: the engine sorts
whatever order the collaborator returned, so re-walking the same tree
yields identical listings. -/

/-- Unfolding equation for `getNames` on a cons cell. -/
theorem getNames_cons (x : Option RawContent) (l : List (Option RawContent)) :
    getNames (x :: l) =
      match x with
      | none => .panic
      | some c =>
        match c.name with
        | none => .panic
        | some n => (getNames l).map (fun ns => n :: ns) := by
  cases x <;> rfl

/-- The name-collection loop always terminates. -/
theorem getNames_not_diverge : ∀ l, getNames l ≠ Outcome.diverge := by
  intro l
  induction l with
  | nil => simp [getNames]
  | cons x rest ih =>
    cases x with
    | none => simp [getNames]
    | some c =>
      cases hn : c.name with
      | none => simp [getNames, hn]
      | some n =>
        simp only [getNames, hn]
        cases hg : getNames rest with
        | ok ns => simp [Outcome.map]
        | panic => simp [Outcome.map]
        | diverge => exact absurd hg ih

/-- Permuted listings produce the same panic behavior and permuted
name collections. -/
theorem getNames_perm {l1 l2 : List (Option RawContent)} (h : List.Perm l1 l2) :
    (getNames l1 = .panic ∧ getNames l2 = .panic) ∨
      ∃ ns1 ns2, getNames l1 = .ok ns1 ∧ getNames l2 = .ok ns2 ∧ List.Perm ns1 ns2 := by
  induction h with
  | nil => exact Or.inr ⟨[], [], rfl, rfl, List.Perm.refl []⟩
  | cons x h ih =>
    rcases x with _ | c
    · exact Or.inl ⟨rfl, rfl⟩
    · rcases hn : c.name with _ | n
      · refine Or.inl ⟨?_, ?_⟩ <;> simp [getNames_cons, hn]
      · rcases ih with ⟨h1, h2⟩ | ⟨ns1, ns2, h1, h2, hp⟩
        · refine Or.inl ⟨?_, ?_⟩ <;> simp [getNames_cons, hn, h1, h2, Outcome.map]
        · refine Or.inr ⟨n :: ns1, n :: ns2, ?_, ?_, List.Perm.cons n hp⟩ <;>
            simp [getNames_cons, hn, h1, h2, Outcome.map]
  | swap x y l =>
    rcases x with _ | cx
    · rcases y with _ | cy
      · exact Or.inl ⟨rfl, rfl⟩
      · rcases hn : cy.name with _ | n
        · refine Or.inl ⟨?_, ?_⟩ <;> simp [getNames_cons, hn]
        · refine Or.inl ⟨?_, ?_⟩ <;> simp [getNames_cons, hn, Outcome.map]
    · rcases hx : cx.name with _ | nx
      · rcases y with _ | cy
        · refine Or.inl ⟨?_, ?_⟩ <;> simp [getNames_cons, hx]
        · rcases hn : cy.name with _ | n
          · refine Or.inl ⟨?_, ?_⟩ <;> simp [getNames_cons, hn, hx]
          · refine Or.inl ⟨?_, ?_⟩ <;> simp [getNames_cons, hn, hx, Outcome.map]
      · rcases y with _ | cy
        · refine Or.inl ⟨?_, ?_⟩ <;> simp [getNames_cons, hx, Outcome.map]
        · rcases hn : cy.name with _ | n
          · refine Or.inl ⟨?_, ?_⟩ <;> simp [getNames_cons, hn, hx, Outcome.map]
          · rcases hg : getNames l with ns | _ | _
            · refine Or.inr ⟨n :: nx :: ns, nx :: n :: ns, ?_, ?_, List.Perm.swap nx n ns⟩ <;>
                simp [getNames_cons, hn, hx, hg, Outcome.map]
            · refine Or.inl ⟨?_, ?_⟩ <;> simp [getNames_cons, hn, hx, hg, Outcome.map]
            · exact absurd hg (getNames_not_diverge l)
  | trans h12 h23 ih12 ih23 =>
    rcases ih12 with ⟨h1, h2⟩ | ⟨ns1, ns2, h1, h2, hp⟩
    · rcases ih23 with ⟨h3, h4⟩ | ⟨ms2, ms3, h3, h4, hq⟩
      · exact Or.inl ⟨h1, h4⟩
      · rw [h2] at h3; cases h3
    · rcases ih23 with ⟨h3, h4⟩ | ⟨ms2, ms3, h3, h4, hq⟩
      · rw [h2] at h3; cases h3
      · rw [h2] at h3
        injection h3 with h3
        exact Or.inr ⟨ns1, ms3, h1, h4, List.Perm.trans hp (h3 ▸ hq)⟩

/-- Permuted inputs sort to the same output. -/
theorem sortStrings_eq_of_perm {ns1 ns2 : List String} (h : List.Perm ns1 ns2) :
    sortStrings ns1 = sortStrings ns2 := by
  apply List.eq_of_perm_of_sorted (r := strLeR)
  · exact ((sortStrings_perm ns1).trans h).trans (sortStrings_perm ns2).symm
  · exact sortStrings_sorted ns1
  · exact sortStrings_sorted ns2

/-! Concrete fixtures used by witnesses and counterexamples. -/

/-- A well-formed raw file record. -/
def rcFile (nm : String) (pa : List String) : RawContent :=
  { type := some "file", target := none, encoding := none, size := some 1,
    name := some nm, path := some pa, content := none, sha := some "s",
    url := some "u", giturl := some "g", htmlurl := some "h", downloadURL := none }

/-- A well-formed raw directory record. -/
def rcDir (nm : String) (pa : List String) : RawContent :=
  { type := some "dir", target := none, encoding := none, size := some 0,
    name := some nm, path := some pa, content := none, sha := some "s",
    url := some "u", giturl := some "g", htmlurl := some "h", downloadURL := none }

/-- The `FileInfo` the engine builds from `rcFile`. -/
def fiFile (nm : String) (pa : List String) : FileInfo :=
  { type := "file", target := none, encoding := none, size := 1, name := nm,
    path := pa, content := none, sha := "s", url := "u", giturl := "g",
    htmlurl := "h", downloadURL := none }

/-- The `FileInfo` the engine builds from `rcDir`. -/
def fiDir (nm : String) (pa : List String) : FileInfo :=
  { type := "dir", target := none, encoding := none, size := 0, name := nm,
    path := pa, content := none, sha := "s", url := "u", giturl := "g",
    htmlurl := "h", downloadURL := none }

/-- A visitor that always continues. -/
def wfNil : WalkFn := fun _ _ _ => none

/-- A tiny tree: the root contains the directory `d` and the file `e`;
`d` is empty. -/
def envW : Env :=
  [([], .ok [some (rcDir "d" ["d"]), some (rcFile "e" ["e"])]),
   (["d"], .ok [])]

/-- A visitor answering the skip sentinel exactly on the path `d`. -/
def wfSkip : WalkFn :=
  fun p _ _ => if p = ["d"] then some .skipDir else none

/-- C2: in the child loop, a skip sentinel coming back from the recursive
walk of a directory child is swallowed and the loop continues with the
remaining siblings; coming back from a non-directory child it is
propagated, ending the loop; any other non-nil error is returned
immediately whether or not the child is a directory. -/
theorem c2_skip_swallow_or_propagate
    (fuel : Nat) (env : Env) (path : List String) (walkFn : WalkFn)
    (name : String) (rest : List String) (fi : FileInfo) (ev1 ev2 : List Event)
    (hstat : stat env (fpJoin path name) = (.ok (.ok (some fi)), ev1)) :
    (walk fuel env (fpJoin path name) (some fi) walkFn = (.ok (some .skipDir), ev2) →
      (fi.isDir = true →
        walkChildren env path walkFn (fun p j => walk fuel env p j walkFn) (name :: rest) =
          ((walkChildren env path walkFn (fun p j => walk fuel env p j walkFn) rest).1,
           ev1 ++ ev2 ++
             (walkChildren env path walkFn (fun p j => walk fuel env p j walkFn) rest).2)) ∧
      (fi.isDir = false →
        walkChildren env path walkFn (fun p j => walk fuel env p j walkFn) (name :: rest) =
          (.ok (some .skipDir), ev1 ++ ev2))) ∧
    (∀ e : GoErr, e ≠ .skipDir →
      walk fuel env (fpJoin path name) (some fi) walkFn = (.ok (some e), ev2) →
      walkChildren env path walkFn (fun p j => walk fuel env p j walkFn) (name :: rest) =
        (.ok (some e), ev1 ++ ev2)) := by
  constructor
  · intro hw
    constructor
    · intro hdir
      rcases hrest : walkChildren env path walkFn (fun p j => walk fuel env p j walkFn) rest
        with ⟨o3, ev3⟩
      simp [walkChildren, hstat, hw, hdir, hrest]
    · intro hndir
      simp [walkChildren, hstat, hw, hndir]
  · intro e he hw
    simp [walkChildren, hstat, hw, he]

/-- Witness for C2 at a concrete tree: the directory child `d` answers the
skip sentinel and the loop moves on to the sibling `e`. -/
theorem c2_witness :
    stat envW ["d"] = (.ok (.ok (some (fiDir "d" ["d"]))), [Event.listCall []]) ∧
    walk 1 envW ["d"] (some (fiDir "d" ["d"])) wfSkip =
      (.ok (some .skipDir), [Event.listCall ["d"], Event.visit ["d"] (some (fiDir "d" ["d"])) none]) ∧
    walkChildren envW [] wfSkip (fun p j => walk 1 envW p j wfSkip) ["d", "e"] =
      ((walkChildren envW [] wfSkip (fun p j => walk 1 envW p j wfSkip) ["e"]).1,
       [Event.listCall []] ++
         [Event.listCall ["d"], Event.visit ["d"] (some (fiDir "d" ["d"])) none] ++
         (walkChildren envW [] wfSkip (fun p j => walk 1 envW p j wfSkip) ["e"]).2) :=
  ⟨by decide, by decide,
   ((c2_skip_swallow_or_propagate 1 envW [] wfSkip "d" ["e"] (fiDir "d" ["d"])
       [Event.listCall []]
       [Event.listCall ["d"], Event.visit ["d"] (some (fiDir "d" ["d"])) none]
       (by decide)).1 (by decide)).1 (by decide)⟩

/-! Event bookkeeping lemmas for the visit-count claims. -/

/-- Number of visitor invocations of a given path in an event list. -/
def visitsAt (p : List String) (l : List Event) : Nat :=
  countP (fun e => match e with
                   | .visit q _ _ => decide (q = p)
                   | _ => false) l

/-- A directory listing performs exactly one remote call. -/
theorem readDirNames_events (env : Env) (p : List String) :
    (readDirNames env p).2 = [Event.listCall p] := by
  simp only [readDirNames]
  cases fetch env p <;> rfl

/-- A stat performs no visitor invocation. -/
theorem stat_no_visits (env : Env) (p : List String) (q : List String)
    (j : Option FileInfo) (er : Option GoErr) :
    Event.visit q j er ∉ (stat env p).2 := by
  by_cases h : p = []
  · subst h; simp [stat_root]
  · simp [stat_events env p h]


/-! Arm-level unfolding equations for the child loop. -/

/-- The loop over an exhausted name list succeeds with no events. -/
theorem walkChildren_nil (env : Env) (path : List String) (walkFn : WalkFn)
    (recur : List String → Option FileInfo → Outcome (Option GoErr) × List Event) :
    walkChildren env path walkFn recur [] = (.ok none, []) := rfl

/-- A stat panic ends the loop with a panic. -/
theorem walkChildren_cons_statPanic {env : Env} {path : List String} {walkFn : WalkFn}
    {recur : List String → Option FileInfo → Outcome (Option GoErr) × List Event}
    {name : String} {rest : List String} {ev1 : List Event}
    (h : stat env (fpJoin path name) = (.panic, ev1)) :
    walkChildren env path walkFn recur (name :: rest) = (.panic, ev1) := by
  simp [walkChildren, h]

/-- A stat divergence ends the loop with divergence. -/
theorem walkChildren_cons_statDiverge {env : Env} {path : List String} {walkFn : WalkFn}
    {recur : List String → Option FileInfo → Outcome (Option GoErr) × List Event}
    {name : String} {rest : List String} {ev1 : List Event}
    (h : stat env (fpJoin path name) = (.diverge, ev1)) :
    walkChildren env path walkFn recur (name :: rest) = (.diverge, ev1) := by
  simp [walkChildren, h]

/-- A failed child stat whose visit answer is nil or the skip sentinel
moves on to the remaining siblings. -/
theorem walkChildren_cons_statErr_go {env : Env} {path : List String} {walkFn : WalkFn}
    {recur : List String → Option FileInfo → Outcome (Option GoErr) × List Event}
    {name : String} {rest : List String} {ev1 : List Event} {e : GoErr}
    (h : stat env (fpJoin path name) = (.ok (.error e), ev1))
    (hr : walkFn (fpJoin path name) none (some e) = none ∨
          walkFn (fpJoin path name) none (some e) = some .skipDir) :
    walkChildren env path walkFn recur (name :: rest) =
      ((walkChildren env path walkFn recur rest).1,
       ev1 ++ [Event.visit (fpJoin path name) none (some e)] ++
         (walkChildren env path walkFn recur rest).2) := by
  rcases hrw : walkChildren env path walkFn recur rest with ⟨o2, ev2⟩
  simp [walkChildren, h, hrw, if_pos hr]

/-- A failed child stat whose visit answer is a real error aborts the
loop with that answer. -/
theorem walkChildren_cons_statErr_abort {env : Env} {path : List String} {walkFn : WalkFn}
    {recur : List String → Option FileInfo → Outcome (Option GoErr) × List Event}
    {name : String} {rest : List String} {ev1 : List Event} {e : GoErr}
    (h : stat env (fpJoin path name) = (.ok (.error e), ev1))
    (hr : ¬(walkFn (fpJoin path name) none (some e) = none ∨
            walkFn (fpJoin path name) none (some e) = some .skipDir)) :
    walkChildren env path walkFn recur (name :: rest) =
      (.ok (walkFn (fpJoin path name) none (some e)),
       ev1 ++ [Event.visit (fpJoin path name) none (some e)]) := by
  simp [walkChildren, h, if_neg hr]

/-- A successful recursive call continues with the remaining siblings. -/
theorem walkChildren_cons_ok_continue {env : Env} {path : List String} {walkFn : WalkFn}
    {recur : List String → Option FileInfo → Outcome (Option GoErr) × List Event}
    {name : String} {rest : List String} {ev1 ev2 : List Event} {fi : Option FileInfo}
    (h : stat env (fpJoin path name) = (.ok (.ok fi), ev1))
    (hr : recur (fpJoin path name) fi = (.ok none, ev2)) :
    walkChildren env path walkFn recur (name :: rest) =
      ((walkChildren env path walkFn recur rest).1,
       ev1 ++ ev2 ++ (walkChildren env path walkFn recur rest).2) := by
  rcases hrw : walkChildren env path walkFn recur rest with ⟨o3, ev3⟩
  simp [walkChildren, h, hr, hrw]

/-- A recursive call answering an error that is not a swallowed directory
skip ends the loop with that error. -/
theorem walkChildren_cons_ok_abort {env : Env} {path : List String} {walkFn : WalkFn}
    {recur : List String → Option FileInfo → Outcome (Option GoErr) × List Event}
    {name : String} {rest : List String} {ev1 ev2 : List Event} {f : FileInfo} {e : GoErr}
    (h : stat env (fpJoin path name) = (.ok (.ok (some f)), ev1))
    (hr : recur (fpJoin path name) (some f) = (.ok (some e), ev2))
    (hc : f.isDir = false ∨ e ≠ .skipDir) :
    walkChildren env path walkFn recur (name :: rest) = (.ok (some e), ev1 ++ ev2) := by
  simp [walkChildren, h, hr, if_pos hc]

/-- A directory child answering the skip sentinel is swallowed and the
loop continues. -/
theorem walkChildren_cons_ok_skipSwallow {env : Env} {path : List String} {walkFn : WalkFn}
    {recur : List String → Option FileInfo → Outcome (Option GoErr) × List Event}
    {name : String} {rest : List String} {ev1 ev2 : List Event} {f : FileInfo}
    (h : stat env (fpJoin path name) = (.ok (.ok (some f)), ev1))
    (hr : recur (fpJoin path name) (some f) = (.ok (some .skipDir), ev2))
    (hc : f.isDir = true) :
    walkChildren env path walkFn recur (name :: rest) =
      ((walkChildren env path walkFn recur rest).1,
       ev1 ++ ev2 ++ (walkChildren env path walkFn recur rest).2) := by
  rcases hrw : walkChildren env path walkFn recur rest with ⟨o3, ev3⟩
  simp [walkChildren, h, hr, hrw, hc]

/-- A nil info for a child whose recursion answered an error would be
dereferenced by the directory check and panics. -/
theorem walkChildren_cons_ok_nonePanic {env : Env} {path : List String} {walkFn : WalkFn}
    {recur : List String → Option FileInfo → Outcome (Option GoErr) × List Event}
    {name : String} {rest : List String} {ev1 ev2 : List Event} {e : GoErr}
    (h : stat env (fpJoin path name) = (.ok (.ok none), ev1))
    (hr : recur (fpJoin path name) none = (.ok (some e), ev2)) :
    walkChildren env path walkFn recur (name :: rest) = (.panic, ev1 ++ ev2) := by
  simp [walkChildren, h, hr]

/-- A recursive call panic propagates. -/
theorem walkChildren_cons_ok_panic {env : Env} {path : List String} {walkFn : WalkFn}
    {recur : List String → Option FileInfo → Outcome (Option GoErr) × List Event}
    {name : String} {rest : List String} {ev1 ev2 : List Event} {fi : Option FileInfo}
    (h : stat env (fpJoin path name) = (.ok (.ok fi), ev1))
    (hr : recur (fpJoin path name) fi = (.panic, ev2)) :
    walkChildren env path walkFn recur (name :: rest) = (.panic, ev1 ++ ev2) := by
  simp [walkChildren, h, hr]

/-- A recursive call divergence propagates. -/
theorem walkChildren_cons_ok_diverge {env : Env} {path : List String} {walkFn : WalkFn}
    {recur : List String → Option FileInfo → Outcome (Option GoErr) × List Event}
    {name : String} {rest : List String} {ev1 ev2 : List Event} {fi : Option FileInfo}
    (h : stat env (fpJoin path name) = (.ok (.ok fi), ev1))
    (hr : recur (fpJoin path name) fi = (.diverge, ev2)) :
    walkChildren env path walkFn recur (name :: rest) = (.diverge, ev1 ++ ev2) := by
  simp [walkChildren, h, hr]

/-- Every event of the child loop is a remote call, a visitor invocation
of a direct child of the directory, or an event of the recursive walk of
a direct child. -/
theorem walkChildren_events_mem (env : Env) (path : List String) (walkFn : WalkFn)
    (recur : List String → Option FileInfo → Outcome (Option GoErr) × List Event) :
    ∀ names, ∀ e ∈ (walkChildren env path walkFn recur names).2,
      (∃ p, e = Event.listCall p) ∨
      (∃ nm j er, nm ∈ names ∧ e = Event.visit (fpJoin path nm) j er) ∨
      (∃ nm j, nm ∈ names ∧ e ∈ (recur (fpJoin path nm) j).2) := by
  intro names
  induction names with
  | nil => intro e he; simp [walkChildren_nil] at he
  | cons name rest ih =>
    intro e he
    have hev1 : (stat env (fpJoin path name)).2 = [Event.listCall path] := by
      rw [stat_events env _ (fpJoin_ne_nil path name), fpDir_join]
    have hchild : ∀ j er, e = Event.visit (fpJoin path name) j er →
        (∃ nm j er, nm ∈ name :: rest ∧ e = Event.visit (fpJoin path nm) j er) :=
      fun j er hm => ⟨name, j, er, List.mem_cons_self _ _, hm⟩
    have hlift : e ∈ (walkChildren env path walkFn recur rest).2 →
        (∃ p, e = Event.listCall p) ∨
        (∃ nm j er, nm ∈ name :: rest ∧ e = Event.visit (fpJoin path nm) j er) ∨
        (∃ nm j, nm ∈ name :: rest ∧ e ∈ (recur (fpJoin path nm) j).2) := by
      intro hm
      rcases ih e hm with h | ⟨nm, j, er, hmem, hm2⟩ | ⟨nm, j, hmem, hm2⟩
      · exact Or.inl h
      · exact Or.inr (Or.inl ⟨nm, j, er, List.mem_cons_of_mem _ hmem, hm2⟩)
      · exact Or.inr (Or.inr ⟨nm, j, List.mem_cons_of_mem _ hmem, hm2⟩)
    rcases hs : stat env (fpJoin path name) with ⟨sv, ev1⟩
    have hev1e : ev1 = [Event.listCall path] := by rw [← hev1, hs]
    subst hev1e
    have hin1 : e ∈ [Event.listCall path] → (∃ p, e = Event.listCall p) := by
      intro hm; simp at hm; exact ⟨path, hm⟩
    rcases sv with r | _ | _
    · rcases r with e1 | fi
      · by_cases hc : walkFn (fpJoin path name) none (some e1) = none ∨
            walkFn (fpJoin path name) none (some e1) = some .skipDir
        · rw [walkChildren_cons_statErr_go hs hc] at he
          simp only [List.mem_append, List.mem_singleton] at he
          rcases he with (he | he) | he
          · exact Or.inl ⟨path, he⟩
          · exact Or.inr (Or.inl (hchild _ _ he))
          · exact hlift he
        · rw [walkChildren_cons_statErr_abort hs hc] at he
          simp only [List.mem_append, List.mem_singleton] at he
          rcases he with he | he
          · exact Or.inl ⟨path, he⟩
          · exact Or.inr (Or.inl (hchild _ _ he))
      · rcases hr : recur (fpJoin path name) fi with ⟨o2, ev2⟩
        have hin2 : e ∈ ev2 →
            (∃ nm j, nm ∈ name :: rest ∧ e ∈ (recur (fpJoin path nm) j).2) :=
          fun hm => ⟨name, fi, List.mem_cons_self _ _, by rw [hr]; exact hm⟩
        rcases o2 with r2 | _ | _
        · rcases r2 with _ | e2
          · rw [walkChildren_cons_ok_continue hs hr] at he
            simp only [List.mem_append] at he
            rcases he with (he | he) | he
            · exact Or.inl (hin1 he)
            · exact Or.inr (Or.inr (hin2 he))
            · exact hlift he
          · rcases fi with _ | f
            · rw [walkChildren_cons_ok_nonePanic hs hr] at he
              simp only [List.mem_append] at he
              rcases he with he | he
              · exact Or.inl (hin1 he)
              · exact Or.inr (Or.inr (hin2 he))
            · by_cases hc : f.isDir = false ∨ e2 ≠ .skipDir
              · rw [walkChildren_cons_ok_abort hs hr hc] at he
                simp only [List.mem_append] at he
                rcases he with he | he
                · exact Or.inl (hin1 he)
                · exact Or.inr (Or.inr (hin2 he))
              · push_neg at hc
                have hdir : f.isDir = true := by
                  rcases hc with ⟨h1, _⟩
                  cases hd : f.isDir
                  · exact absurd hd h1
                  · rfl
                have hskip : e2 = .skipDir := hc.2
                subst hskip
                rw [walkChildren_cons_ok_skipSwallow hs hr hdir] at he
                simp only [List.mem_append] at he
                rcases he with (he | he) | he
                · exact Or.inl (hin1 he)
                · exact Or.inr (Or.inr (hin2 he))
                · exact hlift he
        · rw [walkChildren_cons_ok_panic hs hr] at he
          simp only [List.mem_append] at he
          rcases he with he | he
          · exact Or.inl (hin1 he)
          · exact Or.inr (Or.inr (hin2 he))
        · rw [walkChildren_cons_ok_diverge hs hr] at he
          simp only [List.mem_append] at he
          rcases he with he | he
          · exact Or.inl (hin1 he)
          · exact Or.inr (Or.inr (hin2 he))
    · rw [walkChildren_cons_statPanic hs] at he
      exact Or.inl (hin1 he)
    · rw [walkChildren_cons_statDiverge hs] at he
      exact Or.inl (hin1 he)

/-! Arm-level unfolding equations for the directory step and the walk. -/

/-- A failed listing is reported to the visitor once and its answer is
returned without descending. -/
theorem walkDirStep_listErr {env : Env} {path : List String} {info : Option FileInfo}
    {walkFn : WalkFn}
    {recur : List String → Option FileInfo → Outcome (Option GoErr) × List Event}
    {e : GoErr} {ev : List Event}
    (h : readDirNames env path = (.ok (.error e), ev)) :
    walkDirStep env path info walkFn recur =
      (.ok (walkFn path info (some e)), ev ++ [Event.visit path info (some e)]) := by
  simp [walkDirStep, h]

/-- A successful listing with a non-nil visitor answer returns that answer
without descending. -/
theorem walkDirStep_visitorStop {env : Env} {path : List String} {info : Option FileInfo}
    {walkFn : WalkFn}
    {recur : List String → Option FileInfo → Outcome (Option GoErr) × List Event}
    {names : List String} {ev : List Event} {e : GoErr}
    (h : readDirNames env path = (.ok (.ok names), ev))
    (hv : walkFn path info none = some e) :
    walkDirStep env path info walkFn recur =
      (.ok (some e), ev ++ [Event.visit path info none]) := by
  simp [walkDirStep, h, hv]

/-- A successful listing with a nil visitor answer descends into the
child loop. -/
theorem walkDirStep_go {env : Env} {path : List String} {info : Option FileInfo}
    {walkFn : WalkFn}
    {recur : List String → Option FileInfo → Outcome (Option GoErr) × List Event}
    {names : List String} {ev : List Event}
    (h : readDirNames env path = (.ok (.ok names), ev))
    (hv : walkFn path info none = none) :
    walkDirStep env path info walkFn recur =
      ((walkChildren env path walkFn recur names).1,
       ev ++ [Event.visit path info none] ++
         (walkChildren env path walkFn recur names).2) := by
  rcases hw : walkChildren env path walkFn recur names with ⟨o, ev2⟩
  simp [walkDirStep, h, hv, hw]

/-- A listing panic propagates without a visit. -/
theorem walkDirStep_panic {env : Env} {path : List String} {info : Option FileInfo}
    {walkFn : WalkFn}
    {recur : List String → Option FileInfo → Outcome (Option GoErr) × List Event}
    {ev : List Event}
    (h : readDirNames env path = (.panic, ev)) :
    walkDirStep env path info walkFn recur = (.panic, ev) := by
  simp [walkDirStep, h]

/-- A resolved non-directory is a leaf: one visit, the answer returned. -/
theorem walk_leaf {fuel : Nat} {env : Env} {path : List String} {i : FileInfo}
    {walkFn : WalkFn} (h : i.isDir = false) :
    walk fuel env path (some i) walkFn =
      (.ok (walkFn path (some i) none), [Event.visit path (some i) none]) := by
  cases fuel <;> simp [walk, h]

/-- A resolved directory with fuel goes through the directory step. -/
theorem walk_dir {fuel : Nat} {env : Env} {path : List String} {i : FileInfo}
    {walkFn : WalkFn} (h : i.isDir = true) :
    walk (fuel + 1) env path (some i) walkFn =
      walkDirStep env path (some i) walkFn (fun p j => walk fuel env p j walkFn) := by
  simp [walk, h]

/-- The synthetic root with fuel goes through the directory step. -/
theorem walk_root_eq (fuel : Nat) (env : Env) (path : List String) (walkFn : WalkFn) :
    walk (fuel + 1) env path none walkFn =
      walkDirStep env path none walkFn (fun p j => walk fuel env p j walkFn) := by
  simp [walk]

/-- Every visitor invocation performed by a walk of a path names that path
or a strictly deeper one. -/
theorem walk_visits_ge (fuel : Nat) (env : Env) (walkFn : WalkFn) :
    ∀ q j, ∀ p i er, Event.visit p i er ∈ (walk fuel env q j walkFn).2 →
      q.length ≤ p.length := by
  induction fuel with
  | zero =>
    intro q j p i er hm
    rcases j with _ | fi
    · simp [walk] at hm
    · cases hd : fi.isDir
      · rw [walk_leaf hd] at hm
        simp at hm
        rw [hm.1]
      · simp [walk, hd] at hm
  | succ fuel ih =>
    intro q j p i er hm
    have hdirstep : ∀ info,
        Event.visit p i er ∈ (walkDirStep env q info walkFn
          (fun a b => walk fuel env a b walkFn)).2 → q.length ≤ p.length := by
      intro info hmem
      rcases hrd : readDirNames env q with ⟨r, ev⟩
      have hev : ev = [Event.listCall q] := by rw [← readDirNames_events env q, hrd]
      subst hev
      rcases r with r | _ | _
      · rcases r with e1 | names
        · rw [walkDirStep_listErr hrd] at hmem
          simp at hmem
          rw [hmem.1]
        · rcases hv : walkFn q info none with _ | e2
          · rw [walkDirStep_go hrd hv] at hmem
            simp only [List.mem_append, List.mem_singleton] at hmem
            rcases hmem with (hmem | hmem) | hmem
            · simp at hmem
            · injection hmem with h1 h2 h3
              rw [← h1]
            · rcases walkChildren_events_mem env q walkFn _ names _ hmem with
                ⟨pp, hpp⟩ | ⟨nm, jj, err, _, hpp⟩ | ⟨nm, jj, _, hpp⟩
              · cases hpp
              · injection hpp with h1 h2 h3
                rw [h1]
                simp [fpJoin]
              · have := ih (fpJoin q nm) jj p i er hpp
                simp [fpJoin] at this
                omega
          · rw [walkDirStep_visitorStop hrd hv] at hmem
            simp at hmem
            rw [hmem.1]
      · rw [walkDirStep_panic hrd] at hmem
        simp at hmem
      · simp [walkDirStep, hrd] at hmem
    rcases j with _ | fi
    · rw [walk_root_eq] at hm
      exact hdirstep none hm
    · cases hd : fi.isDir
      · rw [walk_leaf hd] at hm
        simp at hm
        rw [hm.1]
      · rw [walk_dir hd] at hm
        exact hdirstep (some fi) hm

/-- An event list whose visits all name strictly deeper paths contains no
visit of the directory itself. -/
theorem visitsAt_zero_of_deeper (path : List String) (l : List Event)
    (h : ∀ p i er, Event.visit p i er ∈ l → path.length + 1 ≤ p.length) :
    visitsAt path l = 0 := by
  simp only [visitsAt, countP, List.length_eq_zero]
  rw [List.filter_eq_nil_iff]
  intro e he
  cases e with
  | listCall p => simp
  | detailCall p => simp
  | visit p i er =>
    simp only [decide_eq_true_eq, Bool.not_eq_true]
    intro hq
    subst hq
    have := h p i er he
    omega

/-- A remote call does not change the visit count. -/
theorem visitsAt_cons_listCall (path p : List String) (l : List Event) :
    visitsAt path (Event.listCall p :: l) = visitsAt path l := by
  simp [visitsAt, countP, List.filter]

/-- A visit of the directory itself raises the visit count by one. -/
theorem visitsAt_cons_visit_self (path : List String) (i : Option FileInfo)
    (er : Option GoErr) (l : List Event) :
    visitsAt path (Event.visit path i er :: l) = visitsAt path l + 1 := by
  simp [visitsAt, countP, List.filter]

/-- Every visit of the child loop of a directory names a strictly deeper
path than the directory. -/
theorem walkChildren_visits_deep (fuel : Nat) (env : Env) (path : List String)
    (walkFn : WalkFn) (names : List String) :
    ∀ p i er, Event.visit p i er ∈
        (walkChildren env path walkFn (fun a b => walk fuel env a b walkFn) names).2 →
      path.length + 1 ≤ p.length := by
  intro p i er hm
  rcases walkChildren_events_mem env path walkFn _ names _ hm with
    ⟨pp, hpp⟩ | ⟨nm, jj, err, _, hpp⟩ | ⟨nm, jj, _, hpp⟩
  · cases hpp
  · injection hpp with h1 h2 h3
    rw [h1]
    simp [fpJoin]
  · have := walk_visits_ge fuel env walkFn (fpJoin path nm) jj p i er hpp
    simp [fpJoin] at this
    omega

/-- C3: a walked directory (or the synthetic root) is listed first and
then visited exactly once, before any child; when the listing failed or
the visitor answered non-nil, that answer is returned at once and no
child is resolved or visited. -/
theorem c3_dir_visited_once (fuel : Nat) (env : Env) (path : List String)
    (info : Option FileInfo) (walkFn : WalkFn)
    (hinfo : info = none ∨ ∃ i, info = some i ∧ i.isDir = true) :
    (∀ e ev, readDirNames env path = (.ok (.error e), ev) →
       walk (fuel + 1) env path info walkFn =
         (.ok (walkFn path info (some e)),
          [Event.listCall path, Event.visit path info (some e)]) ∧
       visitsAt path [Event.listCall path, Event.visit path info (some e)] = 1) ∧
    (∀ names ev e2, readDirNames env path = (.ok (.ok names), ev) →
       walkFn path info none = some e2 →
       walk (fuel + 1) env path info walkFn =
         (.ok (some e2), [Event.listCall path, Event.visit path info none]) ∧
       visitsAt path [Event.listCall path, Event.visit path info none] = 1) ∧
    (∀ names ev, readDirNames env path = (.ok (.ok names), ev) →
       walkFn path info none = none →
       walk (fuel + 1) env path info walkFn =
         ((walkChildren env path walkFn (fun a b => walk fuel env a b walkFn) names).1,
          Event.listCall path :: Event.visit path info none ::
            (walkChildren env path walkFn (fun a b => walk fuel env a b walkFn) names).2) ∧
       visitsAt path (walk (fuel + 1) env path info walkFn).2 = 1) := by
  have hstep : walk (fuel + 1) env path info walkFn =
      walkDirStep env path info walkFn (fun a b => walk fuel env a b walkFn) := by
    rcases hinfo with h | ⟨i, hi, hdir⟩
    · subst h; exact walk_root_eq fuel env path walkFn
    · subst hi; exact walk_dir hdir
  refine ⟨?_, ?_, ?_⟩
  · intro e ev hrd
    have hev : ev = [Event.listCall path] := by rw [← readDirNames_events env path, hrd]
    subst hev
    constructor
    · rw [hstep, walkDirStep_listErr hrd]
      simp
    · simp [visitsAt, countP, List.filter]
  · intro names ev e2 hrd hv
    have hev : ev = [Event.listCall path] := by rw [← readDirNames_events env path, hrd]
    subst hev
    constructor
    · rw [hstep, walkDirStep_visitorStop hrd hv]
      simp
    · simp [visitsAt, countP, List.filter]
  · intro names ev hrd hv
    have hev : ev = [Event.listCall path] := by rw [← readDirNames_events env path, hrd]
    subst hev
    have heq : walk (fuel + 1) env path info walkFn =
        ((walkChildren env path walkFn (fun a b => walk fuel env a b walkFn) names).1,
         Event.listCall path :: Event.visit path info none ::
           (walkChildren env path walkFn (fun a b => walk fuel env a b walkFn) names).2) := by
      rw [hstep, walkDirStep_go hrd hv]
      simp
    refine ⟨heq, ?_⟩
    rw [heq]
    have h0 : visitsAt path
        (walkChildren env path walkFn (fun a b => walk fuel env a b walkFn) names).2 = 0 :=
      visitsAt_zero_of_deeper path _ (walkChildren_visits_deep fuel env path walkFn names)
    simp [visitsAt_cons_listCall, visitsAt_cons_visit_self, h0]

/-- Witness for C3 at a concrete tree: the root of `envW` is listed, then
visited exactly once before its children `d` and `e`. -/
theorem c3_witness :
    readDirNames envW [] = (.ok (.ok ["d", "e"]), [Event.listCall []]) ∧
    wfNil [] none none = none ∧
    (walk 2 envW [] none wfNil =
      ((walkChildren envW [] wfNil (fun a b => walk 1 envW a b wfNil) ["d", "e"]).1,
       Event.listCall [] :: Event.visit [] none none ::
         (walkChildren envW [] wfNil (fun a b => walk 1 envW a b wfNil) ["d", "e"]).2) ∧
     visitsAt [] (walk 2 envW [] none wfNil).2 = 1) :=
  ⟨by decide, rfl,
   (c3_dir_visited_once 1 envW [] none wfNil (Or.inl rfl)).2.2 ["d", "e"]
     [Event.listCall []] (by decide) rfl⟩

/-! Arm-level unfolding equations for the exported `Walk`. -/

/-- A failed initial stat is routed through the visitor, whose answer is
returned with the skip sentinel translated to nil. -/
theorem Walk_statErr {fuel : Nat} {remote : ClientConfig → Env} {opt : Option WalkOptions}
    {path : List String} {walkFn : WalkFn} {e : GoErr} {ev1 : List Event}
    (h : stat (remote (mkClientConfig opt)) path = (.ok (.error e), ev1)) :
    Walk fuel remote opt path walkFn =
      ((if walkFn path none (some e) = some .skipDir then .ok none
        else .ok (walkFn path none (some e))),
       ev1 ++ [Event.visit path none (some e)]) := by
  simp only [Walk, h]

/-- A successful initial stat hands over to the recursive walk, whose
answer is returned with the skip sentinel translated to nil. -/
theorem Walk_ok {fuel : Nat} {remote : ClientConfig → Env} {opt : Option WalkOptions}
    {path : List String} {walkFn : WalkFn} {info : Option FileInfo}
    {ev1 ev2 : List Event} {r : Option GoErr}
    (h : stat (remote (mkClientConfig opt)) path = (.ok (.ok info), ev1))
    (hw : walk fuel (remote (mkClientConfig opt)) path info walkFn = (.ok r, ev2)) :
    Walk fuel remote opt path walkFn =
      ((if r = some .skipDir then .ok none else .ok r), ev1 ++ ev2) := by
  simp only [Walk, h, hw]

/-- An initial stat panic propagates. -/
theorem Walk_statPanic {fuel : Nat} {remote : ClientConfig → Env} {opt : Option WalkOptions}
    {path : List String} {walkFn : WalkFn} {ev1 : List Event}
    (h : stat (remote (mkClientConfig opt)) path = (.panic, ev1)) :
    Walk fuel remote opt path walkFn = (.panic, ev1) := by
  simp only [Walk, h]

/-- An initial stat divergence propagates. -/
theorem Walk_statDiverge {fuel : Nat} {remote : ClientConfig → Env} {opt : Option WalkOptions}
    {path : List String} {walkFn : WalkFn} {ev1 : List Event}
    (h : stat (remote (mkClientConfig opt)) path = (.diverge, ev1)) :
    Walk fuel remote opt path walkFn = (.diverge, ev1) := by
  simp only [Walk, h]

/-- A panic of the recursive walk propagates. -/
theorem Walk_walkPanic {fuel : Nat} {remote : ClientConfig → Env} {opt : Option WalkOptions}
    {path : List String} {walkFn : WalkFn} {info : Option FileInfo} {ev1 ev2 : List Event}
    (h : stat (remote (mkClientConfig opt)) path = (.ok (.ok info), ev1))
    (hw : walk fuel (remote (mkClientConfig opt)) path info walkFn = (.panic, ev2)) :
    Walk fuel remote opt path walkFn = (.panic, ev1 ++ ev2) := by
  simp only [Walk, h, hw]

/-- A divergence of the recursive walk propagates. -/
theorem Walk_walkDiverge {fuel : Nat} {remote : ClientConfig → Env} {opt : Option WalkOptions}
    {path : List String} {walkFn : WalkFn} {info : Option FileInfo} {ev1 ev2 : List Event}
    (h : stat (remote (mkClientConfig opt)) path = (.ok (.ok info), ev1))
    (hw : walk fuel (remote (mkClientConfig opt)) path info walkFn = (.diverge, ev2)) :
    Walk fuel remote opt path walkFn = (.diverge, ev1 ++ ev2) := by
  simp only [Walk, h, hw]

/-- C9: a stat of the empty path answers a nil info and no error with no
remote call, and the walk then treats the root as a directory: it lists
the root, visits it with a nil info, and descends into its children. -/
theorem c9_root_is_container :
    (∀ env : Env, stat env [] = (.ok (.ok none), [])) ∧
    (∀ (fuel : Nat) (env : Env) (walkFn : WalkFn) (names : List String) (ev : List Event),
       readDirNames env [] = (.ok (.ok names), ev) →
       walkFn [] none none = none →
       walk (fuel + 1) env [] none walkFn =
         ((walkChildren env [] walkFn (fun a b => walk fuel env a b walkFn) names).1,
          Event.listCall [] :: Event.visit [] none none ::
            (walkChildren env [] walkFn (fun a b => walk fuel env a b walkFn) names).2)) ∧
    (∀ (fuel : Nat) (remote : ClientConfig → Env) (opt : Option WalkOptions)
       (walkFn : WalkFn) (r : Option GoErr) (ev2 : List Event),
       walk fuel (remote (mkClientConfig opt)) [] none walkFn = (.ok r, ev2) →
       Walk fuel remote opt [] walkFn =
         ((if r = some .skipDir then .ok none else .ok r), ev2)) := by
  refine ⟨fun env => stat_root env, ?_, ?_⟩
  · intro fuel env walkFn names ev hrd hv
    have hev : ev = [Event.listCall []] := by rw [← readDirNames_events env [], hrd]
    subst hev
    rw [walk_root_eq, walkDirStep_go hrd hv]
    simp
  · intro fuel remote opt walkFn r ev2 hw
    have heq := Walk_ok (stat_root (remote (mkClientConfig opt))) hw
    simpa using heq

/-- Witness for C9: walking `envW` from the root lists the root, visits it
with a nil info, and then descends into `d` and `e`. -/
theorem c9_witness :
    readDirNames envW [] = (.ok (.ok ["d", "e"]), [Event.listCall []]) ∧
    wfNil [] none none = none ∧
    walk 2 envW [] none wfNil =
      ((walkChildren envW [] wfNil (fun a b => walk 1 envW a b wfNil) ["d", "e"]).1,
       Event.listCall [] :: Event.visit [] none none ::
         (walkChildren envW [] wfNil (fun a b => walk 1 envW a b wfNil) ["d", "e"]).2) :=
  ⟨by decide, rfl,
   c9_root_is_container.2.1 1 envW wfNil ["d", "e"] [Event.listCall []] (by decide) rfl⟩

/-- A stat contributes no visitor invocation to the event count. -/
theorem stat_countVisits (env : Env) (p : List String) :
    countP isVisit (stat env p).2 = 0 := by
  by_cases h : p = []
  · subst h; rw [stat_root]; rfl
  · rw [stat_events env p h]; rfl

/-- C5: a failure resolving the initial path is routed through the
visitor rather than returned; `Walk` never returns the skip sentinel as
its own result; and a visitor answering the skip sentinel to a not-found
error on the initial path makes `Walk` return nil after exactly that one
visitor invocation. -/
theorem c5_initial_error_and_no_sentinel :
    (∀ (fuel : Nat) (remote : ClientConfig → Env) (opt : Option WalkOptions)
       (path : List String) (walkFn : WalkFn) (e : GoErr) (ev1 : List Event),
       stat (remote (mkClientConfig opt)) path = (.ok (.error e), ev1) →
       Walk fuel remote opt path walkFn =
         ((if walkFn path none (some e) = some .skipDir then .ok none
           else .ok (walkFn path none (some e))),
          ev1 ++ [Event.visit path none (some e)])) ∧
    (∀ (fuel : Nat) (remote : ClientConfig → Env) (opt : Option WalkOptions)
       (path : List String) (walkFn : WalkFn) (r : Option GoErr),
       (Walk fuel remote opt path walkFn).1 = .ok r → r ≠ some .skipDir) ∧
    (∀ (fuel : Nat) (remote : ClientConfig → Env) (opt : Option WalkOptions)
       (path : List String) (walkFn : WalkFn) (ev1 : List Event),
       stat (remote (mkClientConfig opt)) path =
         (.ok (.error (.notFound path)), ev1) →
       walkFn path none (some (.notFound path)) = some .skipDir →
       Walk fuel remote opt path walkFn =
         (.ok none, ev1 ++ [Event.visit path none (some (.notFound path))]) ∧
       countP isVisit (Walk fuel remote opt path walkFn).2 = 1) := by
  refine ⟨?_, ?_, ?_⟩
  · intro fuel remote opt path walkFn e ev1 h
    exact Walk_statErr h
  · intro fuel remote opt path walkFn r h
    rcases hs : stat (remote (mkClientConfig opt)) path with ⟨sv, ev1⟩
    rcases sv with rr | _ | _
    · rcases rr with e | info
      · rw [Walk_statErr hs] at h
        by_cases hc : walkFn path none (some e) = some .skipDir
        · rw [if_pos hc] at h
          injection h with h
          rw [← h]
          simp
        · rw [if_neg hc] at h
          injection h with h
          rw [← h]
          exact hc
      · rcases hw : walk fuel (remote (mkClientConfig opt)) path info walkFn with ⟨o2, ev2⟩
        rcases o2 with r2 | _ | _
        · rw [Walk_ok hs hw] at h
          by_cases hc : r2 = some .skipDir
          · rw [if_pos hc] at h
            injection h with h
            rw [← h]
            simp
          · rw [if_neg hc] at h
            injection h with h
            rw [← h]
            exact hc
        · rw [Walk_walkPanic hs hw] at h
          cases h
        · rw [Walk_walkDiverge hs hw] at h
          cases h
    · rw [Walk_statPanic hs] at h
      cases h
    · rw [Walk_statDiverge hs] at h
      cases h
  · intro fuel remote opt path walkFn ev1 hs hv
    have heq : Walk fuel remote opt path walkFn =
        (.ok none, ev1 ++ [Event.visit path none (some (.notFound path))]) := by
      rw [Walk_statErr hs, if_pos hv]
    refine ⟨heq, ?_⟩
    rw [heq]
    have h0 : countP isVisit ev1 = 0 := by
      have := stat_countVisits (remote (mkClientConfig opt)) path
      rw [hs] at this
      exact this
    simp only [countP, List.filter_append] at h0 ⊢
    simp [h0, isVisit]

/-- A visitor answering the skip sentinel everywhere. -/
def wfSkipAll : WalkFn := fun _ _ _ => some .skipDir

/-- Witness for C5: walking `envW` at the missing path `zz` with a visitor
answering the skip sentinel returns nil after one visit. -/
theorem c5_witness :
    stat envW ["zz"] = (.ok (.error (.notFound ["zz"])), [Event.listCall []]) ∧
    wfSkipAll ["zz"] none (some (.notFound ["zz"])) = some .skipDir ∧
    (Walk 1 (fun _ => envW) none ["zz"] wfSkipAll =
       (.ok none, [Event.listCall []] ++
         [Event.visit ["zz"] none (some (.notFound ["zz"]))]) ∧
     countP isVisit (Walk 1 (fun _ => envW) none ["zz"] wfSkipAll).2 = 1) :=
  ⟨by decide, rfl,
   c5_initial_error_and_no_sentinel.2.2 1 (fun _ => envW) none ["zz"] wfSkipAll
     [Event.listCall []] (by decide) rfl⟩

/-- A listing in which no entry carries the given name (nil entries are
allowed, since the stat scan skips them; entries must carry a name, since
the scan dereferences it). -/
def noMatchB (b : String) (l : List (Option RawContent)) : Bool :=
  l.all (fun c => match c with
                  | none => true
                  | some rc =>
                    match rc.name with
                    | none => false
                    | some n => n != b)

/-- The stat scan of a listing without a matching name fails with the
not-found error carrying the queried path. -/
theorem statScan_noMatch (path : List String) (b : String) :
    ∀ l, noMatchB b l = true →
      statScan path b l = .ok (.error (.notFound path)) := by
  intro l
  induction l with
  | nil => intro _; rfl
  | cons c rest ih =>
    intro h
    rcases c with _ | rc
    · rw [statScan]
      exact ih (by simpa [noMatchB] using h)
    · rcases hn : rc.name with _ | n
      · exfalso
        simp [noMatchB, hn] at h
      · have hne : ¬ n = b := by
          have := h
          simp only [noMatchB, List.all_cons, Bool.and_eq_true] at this
          rcases this with ⟨h1, _⟩
          rw [hn] at h1
          simpa using h1
        have h2 : noMatchB b rest = true := by
          have := h
          simp only [noMatchB, List.all_cons, Bool.and_eq_true] at this
          exact this.2
        simp only [statScan, hn]
        rw [if_neg hne]
        exact ih h2

/-- A path ending in a component is not the root. -/
theorem append_singleton_ne_nil (p : List String) (b : String) : p ++ [b] ≠ [] := by
  simp

/-- C6: statting a non-empty path whose final component matches no child
of its parent listing fails with the not-found error carrying the path,
and walking that path yields exactly one visitor invocation, for that
path, with a nil entry and the not-found error. -/
theorem c6_notfound_stat_and_walk (fuel : Nat) (remote : ClientConfig → Env)
    (opt : Option WalkOptions) (walkFn : WalkFn) (parent : List String) (b : String)
    (listing : List (Option RawContent))
    (hfetch : fetch (remote (mkClientConfig opt)) parent = .ok listing)
    (hnm : noMatchB b listing = true) :
    stat (remote (mkClientConfig opt)) (parent ++ [b]) =
      (.ok (.error (.notFound (parent ++ [b]))), [Event.listCall parent]) ∧
    Walk fuel remote opt (parent ++ [b]) walkFn =
      ((if walkFn (parent ++ [b]) none (some (.notFound (parent ++ [b]))) = some .skipDir
        then .ok none
        else .ok (walkFn (parent ++ [b]) none (some (.notFound (parent ++ [b]))))),
       [Event.listCall parent,
        Event.visit (parent ++ [b]) none (some (.notFound (parent ++ [b])))]) ∧
    countP isVisit (Walk fuel remote opt (parent ++ [b]) walkFn).2 = 1 := by
  have hdir : fpDir (parent ++ [b]) = parent := by
    simp [fpDir]
  have hbase : fpBase (parent ++ [b]) = b := fpBase_join parent b
  have hstat : stat (remote (mkClientConfig opt)) (parent ++ [b]) =
      (.ok (.error (.notFound (parent ++ [b]))), [Event.listCall parent]) := by
    simp only [stat, if_neg (append_singleton_ne_nil parent b), hdir, hfetch, hbase,
      statScan_noMatch _ b listing hnm, Outcome.map, Except.map]
  have hwalk : Walk fuel remote opt (parent ++ [b]) walkFn =
      ((if walkFn (parent ++ [b]) none (some (.notFound (parent ++ [b]))) = some .skipDir
        then .ok none
        else .ok (walkFn (parent ++ [b]) none (some (.notFound (parent ++ [b]))))),
       [Event.listCall parent,
        Event.visit (parent ++ [b]) none (some (.notFound (parent ++ [b])))]) := by
    rw [Walk_statErr hstat]
    rfl
  refine ⟨hstat, hwalk, ?_⟩
  rw [hwalk]
  rfl

/-- Witness for C6: the path `zz` is missing from the root of `envW`. -/
theorem c6_witness :
    fetch envW [] = .ok [some (rcDir "d" ["d"]), some (rcFile "e" ["e"])] ∧
    noMatchB "zz" [some (rcDir "d" ["d"]), some (rcFile "e" ["e"])] = true ∧
    (stat envW (([] : List String) ++ ["zz"]) =
       (.ok (.error (.notFound (([] : List String) ++ ["zz"]))), [Event.listCall []]) ∧
     Walk 1 (fun _ => envW) none (([] : List String) ++ ["zz"]) wfNil =
       ((if wfNil (([] : List String) ++ ["zz"]) none
             (some (.notFound (([] : List String) ++ ["zz"]))) = some .skipDir
         then .ok none
         else .ok (wfNil (([] : List String) ++ ["zz"]) none
             (some (.notFound (([] : List String) ++ ["zz"]))))),
        [Event.listCall [],
         Event.visit (([] : List String) ++ ["zz"]) none
           (some (.notFound (([] : List String) ++ ["zz"])))]) ∧
     countP isVisit (Walk 1 (fun _ => envW) none (([] : List String) ++ ["zz"]) wfNil).2 = 1) :=
  ⟨by decide, by decide,
   c6_notfound_stat_and_walk 1 (fun _ => envW) none wfNil [] "zz"
     [some (rcDir "d" ["d"]), some (rcFile "e" ["e"])] (by decide) (by decide)⟩

/-- The name order on entries used by the modelled `ListChildren`. -/
def fiNameLe : FileInfo → FileInfo → Prop :=
  fun a b => strLe a.name b.name = true

instance : DecidableRel fiNameLe := by
  intro a b
  unfold fiNameLe
  infer_instance

instance : IsTotal FileInfo fiNameLe :=
  ⟨fun a b => charListLe_total a.name.data b.name.data⟩

instance : IsTrans FileInfo fiNameLe :=
  ⟨fun a b c => charListLe_trans a.name.data b.name.data c.name.data⟩

/-- Inversion of a successful `readDirNames`: the names are the sorted
collection of the fetched listing. -/
theorem readDirNames_ok_inv {env : Env} {path : List String} {names : List String}
    {ev : List Event} (h : readDirNames env path = (.ok (.ok names), ev)) :
    ∃ listing ns, fetch env path = .ok listing ∧ getNames listing = .ok ns ∧
      names = sortStrings ns := by
  rcases hf : fetch env path with e | listing
  · simp only [readDirNames, hf] at h
    simp at h
  · simp only [readDirNames, hf] at h
    rcases hg : getNames listing with ns | _ | _
    · rw [hg] at h
      simp only [Outcome.map] at h
      injection h with h1 h2
      injection h1 with h1
      injection h1 with h1
      exact ⟨listing, ns, rfl, hg, h1.symm⟩
    · rw [hg] at h
      simp [Outcome.map] at h
    · rw [hg] at h
      simp [Outcome.map] at h

/-- C4: directory listings are ordered by name — ascending in the engine,
strictly when names are unique, identically for any collaborator
enumeration order of the same children, and in the modelled variant
ascending by default and descending when the reverse flag is set. -/
theorem c4_listing_order :
    (∀ (env : Env) (path names : List String) (ev : List Event),
       readDirNames env path = (.ok (.ok names), ev) → names.Sorted strLeR) ∧
    (∀ (env : Env) (path names : List String) (ev : List Event),
       readDirNames env path = (.ok (.ok names), ev) → names.Nodup →
       names.Sorted (fun a b => strLeR a b ∧ a ≠ b)) ∧
    (∀ (env1 env2 : Env) (p : List String)
       (L1 L2 : List (Option RawContent)),
       fetch env1 p = .ok L1 → fetch env2 p = .ok L2 → List.Perm L1 L2 →
       readDirNames env1 p = readDirNames env2 p) ∧
    (∀ (env : EnvM) (path : List String) (l : List FileInfo) (ev : List Event),
       listChildren env false path = (.ok l, ev) → l.Sorted fiNameLe) ∧
    (∀ (env : EnvM) (path : List String) (l : List FileInfo) (ev : List Event),
       listChildren env true path = (.ok l, ev) →
       l.Sorted (fun a b => fiNameLe b a)) := by
  refine ⟨?_, ?_, ?_, ?_, ?_⟩
  · intro env path names ev h
    rcases readDirNames_ok_inv h with ⟨listing, ns, _, _, hsort⟩
    rw [hsort]
    exact sortStrings_sorted ns
  · intro env path names ev h hnd
    rcases readDirNames_ok_inv h with ⟨listing, ns, _, _, hsort⟩
    have hsorted : names.Sorted strLeR := by
      rw [hsort]; exact sortStrings_sorted ns
    exact List.Pairwise.and hsorted hnd
  · intro env1 env2 p L1 L2 h1 h2 hp
    simp only [readDirNames, h1, h2]
    rcases getNames_perm hp with ⟨hg1, hg2⟩ | ⟨ns1, ns2, hg1, hg2, hperm⟩
    · rw [hg1, hg2]
    · rw [hg1, hg2]
      simp only [Outcome.map]
      rw [sortStrings_eq_of_perm hperm]
  · intro env path l ev h
    rcases hf : fetchListing env path with e | entries
    · simp only [listChildren, hf] at h
      simp at h
    · simp only [listChildren, hf, Bool.false_eq_true, if_false] at h
      injection h with h1 h2
      injection h1 with h1
      rw [← h1]
      exact List.sorted_insertionSort fiNameLe entries
  · intro env path l ev h
    rcases hf : fetchListing env path with e | entries
    · simp only [listChildren, hf] at h
      simp at h
    · simp only [listChildren, hf, if_true] at h
      injection h with h1 h2
      injection h1 with h1
      rw [← h1]
      exact List.pairwise_reverse.mpr (List.sorted_insertionSort fiNameLe entries)

/-- Witness for C4: the root listing of `envW` comes out ascending. -/
theorem c4_witness :
    readDirNames envW [] = (.ok (.ok ["d", "e"]), [Event.listCall []]) ∧
    List.Sorted strLeR ["d", "e"] :=
  ⟨by decide,
   c4_listing_order.1 envW [] ["d", "e"] [Event.listCall []] (by decide)⟩

/-- A tree for counting remote calls: the root contains the directory `d`,
which contains the files `a` and `b`. -/
def envB : Env :=
  [([], .ok [some (rcDir "d" ["d"])]),
   (["d"], .ok [some (rcFile "a" ["d", "a"]), some (rcFile "b" ["d", "b"])])]

/-- Counterexample to C1: walking the directory `d` of `envB` (two file
children, visitor always continuing, no detail-fetch in this code) issues
three remote list calls of `d` — one from `readDirNames` and one from the
re-issued `stat` of each child — not exactly one. -/
theorem c1_counterexample :
    countP (fun e => e = Event.listCall ["d"])
      (Walk 3 (fun _ => envB) none ["d"] wfNil).2 = 3 ∧
    countP isDetailCall (Walk 3 (fun _ => envB) none ["d"] wfNil).2 = 0 ∧
    countP isVisit (Walk 3 (fun _ => envB) none ["d"] wfNil).2 = 3 ∧
    (3 : Nat) ≠ 1 := by
  decide

/-- C1 amended: in the child loop the engine re-issues `stat` for every
child before anything else happens for that child, so each loop iteration
begins with a remote listing of the parent directory (one extra list call
per child, on top of the directory's own listing; no detail call exists in
this code). -/
theorem c1_child_loop_restats (env : Env) (path : List String) (walkFn : WalkFn)
    (recur : List String → Option FileInfo → Outcome (Option GoErr) × List Event)
    (name : String) (rest : List String) :
    ∃ tail, (walkChildren env path walkFn recur (name :: rest)).2 =
      Event.listCall path :: tail := by
  have hev1 : (stat env (fpJoin path name)).2 = [Event.listCall path] := by
    rw [stat_events env _ (fpJoin_ne_nil path name), fpDir_join]
  rcases hs : stat env (fpJoin path name) with ⟨sv, ev1⟩
  have hev1e : ev1 = [Event.listCall path] := by rw [← hev1, hs]
  subst hev1e
  rcases sv with r | _ | _
  · rcases r with e1 | fi
    · by_cases hc : walkFn (fpJoin path name) none (some e1) = none ∨
          walkFn (fpJoin path name) none (some e1) = some .skipDir
      · rw [walkChildren_cons_statErr_go hs hc]
        exact ⟨Event.visit (fpJoin path name) none (some e1) ::
          (walkChildren env path walkFn recur rest).2, by simp⟩
      · rw [walkChildren_cons_statErr_abort hs hc]
        exact ⟨[Event.visit (fpJoin path name) none (some e1)], by simp⟩
    · rcases hr : recur (fpJoin path name) fi with ⟨o2, ev2⟩
      rcases o2 with r2 | _ | _
      · rcases r2 with _ | e2
        · rw [walkChildren_cons_ok_continue hs hr]
          exact ⟨ev2 ++ (walkChildren env path walkFn recur rest).2, by simp⟩
        · rcases fi with _ | f
          · rw [walkChildren_cons_ok_nonePanic hs hr]
            exact ⟨ev2, by simp⟩
          · by_cases hc : f.isDir = false ∨ e2 ≠ .skipDir
            · rw [walkChildren_cons_ok_abort hs hr hc]
              exact ⟨ev2, by simp⟩
            · push_neg at hc
              have hdir : f.isDir = true := by
                cases hd : f.isDir
                · exact absurd hd hc.1
                · rfl
              have hskip : e2 = .skipDir := hc.2
              subst hskip
              rw [walkChildren_cons_ok_skipSwallow hs hr hdir]
              exact ⟨ev2 ++ (walkChildren env path walkFn recur rest).2, by simp⟩
      · rw [walkChildren_cons_ok_panic hs hr]
        exact ⟨ev2, by simp⟩
      · rw [walkChildren_cons_ok_diverge hs hr]
        exact ⟨ev2, by simp⟩
  · rw [walkChildren_cons_statPanic hs]
    exact ⟨[], rfl⟩
  · rw [walkChildren_cons_statDiverge hs]
    exact ⟨[], rfl⟩

/-- C7: a child the filter vetoes is dropped from the loop entirely — the
iteration over the remaining children is exactly the iteration that would
have happened without it, so the vetoed child (and everything under it)
costs no remote call and no visitor invocation, while the other siblings
are processed unchanged. -/
theorem c7_filter_veto (env : EnvM) (cfg : WalkConfigM) (path : List String)
    (walkFn : WalkFn)
    (recur : List String → FileInfo → Outcome (Option GoErr) × List Event)
    (c : FileInfo) (rest : List FileInfo) (f : List String → FileInfo → Bool)
    (hf : cfg.filter = some f) (hveto : f (fpJoin path c.name) c = true) :
    walkChildrenM env cfg path walkFn recur (c :: rest) =
      walkChildrenM env cfg path walkFn recur rest := by
  simp [walkChildrenM, hf, hveto]

/-- An empty modelled collaborator. -/
def envM0 : EnvM :=
  { listings := [], details := [] }

/-- A modelled configuration whose filter vetoes every path containing a
component `dir`. -/
def cfgVeto : WalkConfigM :=
  { fileOnlyInfo := false, reverse := false,
    filter := some (fun p _ => p.contains "dir") }

/-- Witness for C7: the child `dir` is vetoed and the loop collapses to
the loop over its siblings. -/
theorem c7_witness :
    cfgVeto.filter = some (fun p _ => p.contains "dir") ∧
    (fun (p : List String) (_ : FileInfo) => p.contains "dir")
      (fpJoin [] (fiDir "dir" ["dir"]).name) (fiDir "dir" ["dir"]) = true ∧
    walkChildrenM envM0 cfgVeto [] wfNil (fun _ _ => (.ok none, []))
        [fiDir "dir" ["dir"], fiFile "a" ["a"]] =
      walkChildrenM envM0 cfgVeto [] wfNil (fun _ _ => (.ok none, []))
        [fiFile "a" ["a"]] :=
  ⟨rfl, by decide,
   c7_filter_veto envM0 cfgVeto [] wfNil (fun _ _ => (.ok none, []))
     (fiDir "dir" ["dir"]) [fiFile "a" ["a"]] (fun p _ => p.contains "dir")
     rfl (by decide)⟩

/-- C10: a nil options value and an options value with empty token and
empty ref produce the same client configuration — unauthenticated, default
ref — and `Walk` behaves identically under the two. -/
theorem c10_nil_options_default (fuel : Nat) (remote : ClientConfig → Env)
    (path : List String) (walkFn : WalkFn) :
    mkClientConfig none = { authenticated := false, ref := none } ∧
    mkClientConfig (some { token := "", ref := "" }) =
      { authenticated := false, ref := none } ∧
    Walk fuel remote none path walkFn =
      Walk fuel remote (some { token := "", ref := "" }) path walkFn := by
  refine ⟨rfl, ?_, ?_⟩
  · simp [mkClientConfig]
  · rfl

/-! Well-formed collaborator responses never make the engine panic. -/

/-- A fetched successful listing of a well-formed table is well formed. -/
theorem fetch_goodListing : ∀ env : Env, envOKB env = true →
    ∀ p l, fetch env p = .ok l → goodListingB l = true := by
  intro env
  induction env with
  | nil => intro _ p l h; simp [fetch] at h
  | cons pr rest ih =>
    intro henv p l h
    rcases pr with ⟨p0, r0⟩
    rw [envOKB, List.all_cons, Bool.and_eq_true] at henv
    rw [fetch] at h
    by_cases hq : p0 = p
    · rw [if_pos hq] at h
      have h1 := henv.1
      rw [h] at h1
      simpa using h1
    · rw [if_neg hq] at h
      exact ih henv.2 p l h

/-- A well-formed record yields a `FileInfo` without panicking. -/
theorem newFileInfo_ok (c : RawContent) (h : goodContentB c = true) :
    ∃ fi, newFileInfo c = .ok fi := by
  simp only [goodContentB, Bool.and_eq_true] at h
  obtain ⟨⟨⟨⟨⟨⟨⟨ht, hs⟩, hn⟩, hp⟩, hsha⟩, hu⟩, hg⟩, hh⟩ := h
  rw [Option.isSome_iff_exists] at ht hs hn hp hsha hu hg hh
  obtain ⟨ty, hty⟩ := ht
  obtain ⟨sz, hsz⟩ := hs
  obtain ⟨nm, hnm⟩ := hn
  obtain ⟨pa, hpa⟩ := hp
  obtain ⟨sh, hsh⟩ := hsha
  obtain ⟨u, hu2⟩ := hu
  obtain ⟨g, hg2⟩ := hg
  obtain ⟨ht2, hh2⟩ := hh
  refine ⟨{ type := ty, target := c.target, encoding := c.encoding, size := sz,
            name := nm, path := pa, content := c.content, sha := sh, url := u,
            giturl := g, htmlurl := ht2, downloadURL := c.downloadURL }, ?_⟩
  simp [newFileInfo, hty, hsz, hnm, hpa, hsh, hu2, hg2, hh2]

/-- Collecting the names of a well-formed listing does not panic. -/
theorem getNames_ok (l : List (Option RawContent)) (h : goodListingB l = true) :
    ∃ ns, getNames l = .ok ns := by
  induction l with
  | nil => exact ⟨[], rfl⟩
  | cons c rest ih =>
    rcases c with _ | rc
    · simp [goodListingB] at h
    · have hg : goodContentB rc = true ∧ goodListingB rest = true := by
        simpa [goodListingB, List.all_cons] using h
      have hname : ∃ n, rc.name = some n := by
        have := hg.1
        simp only [goodContentB, Bool.and_eq_true] at this
        rw [← Option.isSome_iff_exists]
        exact this.1.1.1.1.1.2
      rcases hname with ⟨n, hn⟩
      rcases ih hg.2 with ⟨ns, hns⟩
      exact ⟨n :: ns, by simp [getNames, hn, hns, Outcome.map]⟩

/-- Scanning a well-formed listing does not panic. -/
theorem statScan_no_panic (path : List String) (b : String) :
    ∀ l, goodListingB l = true → statScan path b l ≠ .panic := by
  intro l
  induction l with
  | nil => intro _; simp [statScan]
  | cons c rest ih =>
    intro h
    rcases c with _ | rc
    · simp [goodListingB] at h
    · have hg : goodContentB rc = true ∧ goodListingB rest = true := by
        simpa [goodListingB, List.all_cons] using h
      have hname : ∃ n, rc.name = some n := by
        have := hg.1
        simp only [goodContentB, Bool.and_eq_true] at this
        rw [← Option.isSome_iff_exists]
        exact this.1.1.1.1.1.2
      rcases hname with ⟨n, hn⟩
      simp only [statScan, hn]
      by_cases hb : n = b
      · rw [if_pos hb]
        rcases newFileInfo_ok rc hg.1 with ⟨fi, hfi⟩
        simp [hfi, Outcome.map]
      · rw [if_neg hb]
        exact ih hg.2

/-- A stat against a well-formed table does not panic. -/
theorem stat_no_panic (env : Env) (p : List String) (henv : envOKB env = true) :
    (stat env p).1 ≠ .panic := by
  by_cases hp : p = []
  · subst hp; simp [stat_root]
  · simp only [stat, if_neg hp]
    rcases hf : fetch env (fpDir p) with e | listing
    · simp
    · have hgl := fetch_goodListing env henv _ _ hf
      rcases hs : statScan p (fpBase p) listing with r | _ | _
      · simp [hs, Outcome.map]
      · exact absurd hs (statScan_no_panic p (fpBase p) listing hgl)
      · simp [hs, Outcome.map]

/-- A directory listing against a well-formed table does not panic. -/
theorem readDirNames_no_panic (env : Env) (p : List String)
    (henv : envOKB env = true) : (readDirNames env p).1 ≠ .panic := by
  simp only [readDirNames]
  rcases hf : fetch env p with e | listing
  · simp
  · rcases getNames_ok listing (fetch_goodListing env henv p listing hf) with ⟨ns, hns⟩
    simp [hns, Outcome.map]

/-- The child loop panics neither, as long as the recursive calls do not. -/
theorem walkChildren_no_panic (env : Env) (path : List String) (walkFn : WalkFn)
    (recur : List String → Option FileInfo → Outcome (Option GoErr) × List Event)
    (henv : envOKB env = true)
    (hrec : ∀ p j, (recur p j).1 ≠ .panic) :
    ∀ names, (walkChildren env path walkFn recur names).1 ≠ .panic := by
  intro names
  induction names with
  | nil => simp [walkChildren_nil]
  | cons name rest ih =>
    rcases hs : stat env (fpJoin path name) with ⟨sv, ev1⟩
    rcases sv with r | _ | _
    · rcases r with e1 | fi
      · by_cases hc : walkFn (fpJoin path name) none (some e1) = none ∨
            walkFn (fpJoin path name) none (some e1) = some .skipDir
        · rw [walkChildren_cons_statErr_go hs hc]
          simpa using ih
        · rw [walkChildren_cons_statErr_abort hs hc]
          simp
      · rcases hr : recur (fpJoin path name) fi with ⟨o2, ev2⟩
        have ho2 : o2 ≠ .panic := by
          have := hrec (fpJoin path name) fi
          rw [hr] at this
          simpa using this
        rcases o2 with r2 | _ | _
        · rcases r2 with _ | e2
          · rw [walkChildren_cons_ok_continue hs hr]
            simpa using ih
          · rcases fi with _ | f
            · exfalso
              have := stat_not_ok_none env (fpJoin path name) (fpJoin_ne_nil path name)
              rw [hs] at this
              exact this rfl
            · by_cases hc : f.isDir = false ∨ e2 ≠ .skipDir
              · rw [walkChildren_cons_ok_abort hs hr hc]
                simp
              · push_neg at hc
                have hdir : f.isDir = true := by
                  cases hd : f.isDir
                  · exact absurd hd hc.1
                  · rfl
                have hskip : e2 = .skipDir := hc.2
                subst hskip
                rw [walkChildren_cons_ok_skipSwallow hs hr hdir]
                simpa using ih
        · exact absurd rfl ho2
        · rw [walkChildren_cons_ok_diverge hs hr]
          simp
    · exfalso
      have := stat_no_panic env (fpJoin path name) henv
      rw [hs] at this
      exact this rfl
    · rw [walkChildren_cons_statDiverge hs]
      simp

/-- A listing divergence propagates through the directory step. -/
theorem walkDirStep_diverge {env : Env} {path : List String} {info : Option FileInfo}
    {walkFn : WalkFn}
    {recur : List String → Option FileInfo → Outcome (Option GoErr) × List Event}
    {ev : List Event}
    (h : readDirNames env path = (.diverge, ev)) :
    walkDirStep env path info walkFn recur = (.diverge, ev) := by
  simp [walkDirStep, h]

/-- The recursive walk of a well-formed table never panics. -/
theorem walk_no_panic (env : Env) (henv : envOKB env = true) :
    ∀ fuel (path : List String) (info : Option FileInfo) (walkFn : WalkFn),
      (walk fuel env path info walkFn).1 ≠ .panic := by
  intro fuel
  induction fuel with
  | zero =>
    intro path info walkFn
    rcases info with _ | i
    · simp [walk]
    · cases hd : i.isDir
      · rw [walk_leaf hd]; simp
      · simp [walk, hd]
  | succ fuel ih =>
    intro path info walkFn
    have hstep : ∀ info2 : Option FileInfo,
        (walkDirStep env path info2 walkFn
          (fun a b => walk fuel env a b walkFn)).1 ≠ .panic := by
      intro info2
      rcases hrd : readDirNames env path with ⟨r, ev⟩
      rcases r with r | _ | _
      · rcases r with e1 | names
        · rw [walkDirStep_listErr hrd]; simp
        · rcases hv : walkFn path info2 none with _ | e2
          · rw [walkDirStep_go hrd hv]
            simpa using walkChildren_no_panic env path walkFn
              (fun a b => walk fuel env a b walkFn) henv
              (fun p j => ih p j walkFn) names
          · rw [walkDirStep_visitorStop hrd hv]; simp
      · exfalso
        have := readDirNames_no_panic env path henv
        rw [hrd] at this
        exact this rfl
      · rw [walkDirStep_diverge hrd]; simp
    rcases info with _ | i
    · rw [walk_root_eq]; exact hstep none
    · cases hd : i.isDir
      · rw [walk_leaf hd]; simp
      · rw [walk_dir hd]; exact hstep (some i)

/-- An ill-formed collaborator response: the root listing contains a nil
entry. -/
def envBad : Env :=
  [([], .ok [none])]

/-- Counterexample to C8: on the ill-formed response of `envBad` (a nil
entry in a listing) the walk panics — the nil pointer is dereferenced in
the name-collection loop of `readDirNames`. -/
theorem c8_counterexample :
    envOKB envBad = false ∧
    (Walk 1 (fun _ => envBad) none [] wfNil).1 = .panic := by
  decide

/-- C8 amended: as long as every successful listing the collaborator can
return is well formed (no nil entry, all required fields present), `Walk`
never panics — remote failures (error results) always surface as visitor
arguments or return values, never as dereference panics. -/
theorem c8_no_panic_wellformed (fuel : Nat) (remote : ClientConfig → Env)
    (opt : Option WalkOptions) (path : List String) (walkFn : WalkFn)
    (henv : envOKB (remote (mkClientConfig opt)) = true) :
    (Walk fuel remote opt path walkFn).1 ≠ .panic := by
  rcases hs : stat (remote (mkClientConfig opt)) path with ⟨sv, ev1⟩
  rcases sv with r | _ | _
  · rcases r with e | info
    · rw [Walk_statErr hs]
      by_cases hc : walkFn path none (some e) = some .skipDir
      · rw [if_pos hc]; simp
      · rw [if_neg hc]; simp
    · rcases hw : walk fuel (remote (mkClientConfig opt)) path info walkFn with ⟨o2, ev2⟩
      rcases o2 with r2 | _ | _
      · rw [Walk_ok hs hw]
        by_cases hc : r2 = some .skipDir
        · rw [if_pos hc]; simp
        · rw [if_neg hc]; simp
      · exfalso
        have := walk_no_panic (remote (mkClientConfig opt)) henv fuel path info walkFn
        rw [hw] at this
        exact this rfl
      · rw [Walk_walkDiverge hs hw]; simp
  · exfalso
    have := stat_no_panic (remote (mkClientConfig opt)) path henv
    rw [hs] at this
    exact this rfl
  · rw [Walk_statDiverge hs]; simp

/-- Witness for the amended C8: the well-formed `envW` never panics. -/
theorem c8_witness :
    envOKB envW = true ∧ (Walk 2 (fun _ => envW) none [] wfNil).1 ≠ .panic :=
  ⟨by decide, c8_no_panic_wellformed 2 (fun _ => envW) none [] wfNil (by decide)⟩
